import Mathlib

/-!
# HISAT2 `repeat_builder.h`: repeat groups, variant rows and fragments

A shallow embedding of the inline code of `repeat_builder.h`
(`to_string`, `Fragments::contain`, the `RepeatGroup` methods) and the
properties of it that the repository's specification states.

Conventions of the embedding
* `size_t` is the 64-bit unsigned type of the `-m64` build: every `size_t`
  operation is reduced modulo `2 ^ 64`.
* `int` is 32-bit two's complement: an `int` increment is reduced with
  `wrapInt`.
* `EList<T>` is a `List T`; `ostream` is the text written so far, and
  `fp << x` appends the text of `x`; `endl` appends a newline.
* A failed `assert` or an `operator[]` outside the list is `none`.
-/

namespace RepeatBuilder

/-! ## Machine integers -/

/-- Number of values of `size_t` (64-bit). -/
def SIZE_T_MOD : Nat := 2 ^ 64

/-- The value of C++ type `int` with the same low 32 bits as `z`. -/
def wrapInt (z : Int) : Int := (z + 2 ^ 31) % 2 ^ 32 - 2 ^ 31

/-- The `size_t` value with the same low 64 bits as `z`. -/
def wrapSize (z : Int) : Nat := (z % 2 ^ 64).toNat

/-- The `uint32_t` value with the same low 32 bits as `z`. -/
def wrapU32 (z : Int) : Nat := (z % 2 ^ 32).toNat

/-! ## `to_string` -/

/-- Function `static string to_string(int val)`: `ss << val` on a fresh
`stringstream`, the decimal text of the `int`, with a leading `-` when
negative. -/
def to_string (val : Int) : String := toString val

/-- Library function `std::to_string(unsigned long)`: the decimal text of the
value.  The header is compiled with `using namespace std`, so the call
`to_string(base_idx++)` in `buildSNPs`, whose argument is a `size_t`, has both
the file's `to_string(int)` and the `std::to_string` overloads as candidates,
and overload resolution selects this exact match. -/
def std_to_string (val : Nat) : String := toString val

/-! ## Data model -/

/-- Modelled from the spec: the kind tag of an `Edit` (`edit.h` is not part of
the source under study).  The spec names mismatch, insertion and deletion
edits; `other` stands for every remaining tag. -/
inductive EditType where
  | readGap
  | refGap
  | mismatch
  | other
  deriving DecidableEq, Repr

/-- Modelled from the spec: the `Edit` record of `edit.h`, with the members
that `repeat_builder.h` reads: `pos` (a `uint32_t`), the query character
`qchr` (a character code) and the kind tag. -/
structure Edit where
  pos : Nat
  qchr : Nat
  type : EditType
  deriving DecidableEq, Repr

/-- Method `Edit::isMismatch()`. -/
def Edit.isMismatch (e : Edit) : Bool := e.type == EditType.mismatch

/-- Method `Edit::isReadGap()`. -/
def Edit.isReadGap (e : Edit) : Bool := e.type == EditType.readGap

/-- Method `Edit::isRefGap()`. -/
def Edit.isRefGap (e : Edit) : Bool := e.type == EditType.refGap

/-- Modelled from the spec: the reference coordinate `Coord` of `ref_coord.h`;
`off()` returns the signed 64-bit offset member. -/
structure Coord where
  ref : Int
  off : Int
  fw : Bool
  deriving DecidableEq, Repr

/-- Modelled from the spec: `RepeatCoord<TIndexOffU>` of `repeat.h`, one
occurrence of a repeat (record id, offset in the record, joined offset,
strand). -/
structure RepeatCoord where
  tid : Nat
  toff : Nat
  joinedOff : Nat
  fw : Bool
  deriving DecidableEq, Repr

/-- The `struct Fragments`. -/
structure Fragments where
  joinedOff : Nat
  length : Nat
  frag_id : Int
  seq_id : Int
  seqOff : Nat
  first : Bool
  deriving DecidableEq, Repr

/-- The `struct RepeatGroup`. -/
structure RepeatGroup where
  seq : String
  positions : List RepeatCoord
  coord : Coord
  edits : List Edit
  snpIDs : List String
  alt_seq : List RepeatGroup
  base_offset : Nat

/-! ## `Fragments::contain` -/

/-- Method `Fragments::contain(pos)`.  `TIndexOffU` is declared outside this file;
its bit width `w` is a parameter, and `joinedOff + length` is computed in
that type. -/
def Fragments.contain (w : Nat) (f : Fragments) (pos : Nat) : Bool :=
  if pos ≥ f.joinedOff && pos < (f.joinedOff + f.length) % 2 ^ w then true
  else false

/-! ## `RepeatGroup` operations -/

/-- Call of `EList::back()` used as an assignment target: apply `f` to the last
element. -/
def modifyBack {α : Type} (f : α → α) : List α → List α
  | [] => []
  | [x] => [f x]
  | x :: y :: rest => x :: modifyBack f (y :: rest)

/-- Method `RepeatGroup::merge(const RepeatGroup& rg)`: `alt_seq.push_back(rg)`
(the rest of the body is compiled out by `#if 0`). -/
def RepeatGroup.merge (g rg : RepeatGroup) : RepeatGroup :=
  { g with alt_seq := g.alt_seq ++ [rg] }

/-- Method `RepeatGroup::merge(rg, ed, coord)`: `merge(rg)`, then the `edits` and
`coord` of `alt_seq.back()` are overwritten. -/
def RepeatGroup.mergeEdits (g rg : RepeatGroup) (ed : List Edit) (coord : Coord) :
    RepeatGroup :=
  let g1 := g.merge rg
  let g2 := { g1 with alt_seq := modifyBack (fun a => { a with edits := ed }) g1.alt_seq }
  { g2 with alt_seq := modifyBack (fun a => { a with coord := coord }) g2.alt_seq }

/-- Method `RepeatGroup::empty()`. -/
def RepeatGroup.empty (g : RepeatGroup) : Bool := g.positions.length == 0

/-- Method `RepeatGroup::set_empty()`: `positions.clear()`; the assertion that
follows holds. -/
def RepeatGroup.set_empty (g : RepeatGroup) : RepeatGroup :=
  { g with positions := [] }

/-- The loop of `buildSNPs`; `k` iterations remain.  The `size_t` counter is
rendered in full by `std::to_string(unsigned long)`; `base_idx++` is a
`size_t` increment. -/
def buildSNPsLoop : Nat → List String → Nat → List String × Nat
  | 0, snpIDs, base_idx => (snpIDs, base_idx)
  | k + 1, snpIDs, base_idx =>
    buildSNPsLoop k (snpIDs ++ ["rps" ++ std_to_string base_idx])
      ((base_idx + 1) % SIZE_T_MOD)

/-- Method `RepeatGroup::buildSNPs(size_t& base_idx)`: the group and the counter
after the call. -/
def RepeatGroup.buildSNPs (g : RepeatGroup) (base_idx : Nat) : RepeatGroup × Nat :=
  let r := buildSNPsLoop g.edits.length [] base_idx
  ({ g with snpIDs := r.1 }, r.2)

/-- The local `size_t ref_base = base_offset + coord.off()`. -/
def RepeatGroup.ref_base (g : RepeatGroup) : Nat :=
  wrapSize ((g.base_offset : Int) + g.coord.off)

/-- The expression `ref_base + edits[i].pos + rd_gaps - rf_gaps` of
`writeSNPs`, evaluated in `size_t`. -/
def snpPos (ref_base : Nat) (ed : Edit) (rd_gaps rf_gaps : Int) : Nat :=
  wrapSize ((ref_base : Int) + (ed.pos : Int) + rd_gaps - rf_gaps)

/-- The condition of `assert_geq(edits[i].pos + rd_gaps - rf_gaps, 0)`; the
left side is computed in `uint32_t`. -/
def assertGeqPos (ed : Edit) (rd_gaps rf_gaps : Int) : Bool :=
  decide (wrapU32 ((ed.pos : Int) + rd_gaps - rf_gaps) ≥ 0)

/-- Text written by `fp << (char)edits[i].qchr`: the one character. -/
def charText (c : Nat) : String := String.singleton (Char.ofNat (c % 256))

/-- The loop of `writeSNPs` over the edits that remain, `i` being the index of
the first of them.  `qchrText` is the text that `fp << edits[i].qchr` writes
for a mismatch: it depends on the declared type of `Edit::qchr`, which is
outside this file. -/
def writeSNPsLoop (qchrText : Nat → String) (snpIDs : List String)
    (rep_chr_name : String) (ref_base : Nat) :
    List Edit → Nat → Int → Int → String → Option String
  | [], _, _, _, fp => some fp
  | ed :: rest, i, rd_gaps, rf_gaps, fp =>
    if !assertGeqPos ed rd_gaps rf_gaps then none
    else if ed.isMismatch then
      match snpIDs[i]? with
      | none => none
      | some id =>
        writeSNPsLoop qchrText snpIDs rep_chr_name ref_base rest (i + 1) rd_gaps rf_gaps
          (fp ++ id ++ "\t" ++ "single" ++ "\t" ++ rep_chr_name ++ "\t"
            ++ toString (snpPos ref_base ed rd_gaps rf_gaps) ++ "\t"
            ++ qchrText ed.qchr ++ "\n")
    else if ed.isReadGap then
      match snpIDs[i]? with
      | none => none
      | some id =>
        writeSNPsLoop qchrText snpIDs rep_chr_name ref_base rest (i + 1)
          (wrapInt (rd_gaps + 1)) rf_gaps
          (fp ++ id ++ "\t" ++ "deletion" ++ "\t" ++ rep_chr_name ++ "\t"
            ++ toString (snpPos ref_base ed rd_gaps rf_gaps) ++ "\t"
            ++ "1" ++ "\n")
    else if ed.isRefGap then
      match snpIDs[i]? with
      | none => none
      | some id =>
        writeSNPsLoop qchrText snpIDs rep_chr_name ref_base rest (i + 1)
          rd_gaps (wrapInt (rf_gaps + 1))
          (fp ++ id ++ "\t" ++ "insertion" ++ "\t" ++ rep_chr_name ++ "\t"
            ++ toString (snpPos ref_base ed rd_gaps rf_gaps) ++ "\t"
            ++ charText ed.qchr ++ "\n")
    else none

/-- Method `RepeatGroup::writeSNPs(ostream& fp, const string& rep_chr_name)`: the
group and the stream after the call. -/
def RepeatGroup.writeSNPs (qchrText : Nat → String) (g : RepeatGroup) (fp : String)
    (rep_chr_name : String) : Option (RepeatGroup × String) :=
  match writeSNPsLoop qchrText g.snpIDs rep_chr_name g.ref_base g.edits 0 0 0 fp with
  | none => none
  | some out => some (g, out)

/-- The first loop of `writeHaploType`: the final `(rd_gaps, rf_gaps)`. -/
def haploGaps : List Edit → Int → Int → Int × Int
  | [], rd_gaps, rf_gaps => (rd_gaps, rf_gaps)
  | ed :: rest, rd_gaps, rf_gaps =>
    if ed.isReadGap then haploGaps rest (wrapInt (rd_gaps + 1)) rf_gaps
    else if ed.isRefGap then haploGaps rest rd_gaps (wrapInt (rf_gaps + 1))
    else haploGaps rest rd_gaps rf_gaps

/-- The last loop of `writeHaploType`; `k` iterations remain and `i` is the
index. -/
def haploIDsLoop (snpIDs : List String) : Nat → Nat → String → Option String
  | 0, _, fp => some fp
  | k + 1, i, fp =>
    match snpIDs[i]? with
    | none => none
    | some id => haploIDsLoop snpIDs k (i + 1) ((if i != 0 then fp ++ "," else fp) ++ id)

/-- Method `RepeatGroup::writeHaploType(ofstream& fp, const string& rep_chr_name,
size_t& base_idx)`: the group, the stream and the counter after the call. -/
def RepeatGroup.writeHaploType (g : RepeatGroup) (fp : String) (rep_chr_name : String)
    (base_idx : Nat) : Option (RepeatGroup × String × Nat) :=
  if !(g.edits.length > 0) then none
  else if !(g.edits.length == g.snpIDs.length) then none
  else
    let ref_base := g.ref_base
    let gaps := haploGaps g.edits 0 0
    match g.edits[0]?, g.edits[g.edits.length - 1]? with
    | some e0, some eN =>
      let left : Nat := e0.pos % SIZE_T_MOD
      let right : Nat := wrapU32 ((eN.pos : Int) + gaps.1 - gaps.2)
      let fp1 := fp ++ "rpht" ++ toString base_idx
      let fp2 := fp1 ++ "\t" ++ rep_chr_name
      let fp3 := fp2 ++ "\t" ++ toString ((ref_base + left) % SIZE_T_MOD)
      let fp4 := fp3 ++ "\t" ++ toString ((ref_base + right) % SIZE_T_MOD)
      let fp5 := fp4 ++ "\t"
      match haploIDsLoop g.snpIDs g.edits.length 0 fp5 with
      | none => none
      | some fp6 => some (g, fp6 ++ "\n", (base_idx + 1) % SIZE_T_MOD)
    | _, _ => none

/-- The calling pattern of the catalog: `buildSNPs` on each group in turn,
one counter threaded through all the calls. -/
def buildSNPsAll : List RepeatGroup → Nat → List RepeatGroup × Nat
  | [], base_idx => ([], base_idx)
  | g :: gs, base_idx =>
    let r := g.buildSNPs base_idx
    let rs := buildSNPsAll gs r.2
    (r.1 :: rs.1, rs.2)

/-- Every variant identifier of a catalog, group by group, in edit order. -/
def allSnpIDs (gs : List RepeatGroup) : List String :=
  gs.flatMap (fun g => g.snpIDs)

/-- Number of edits of a catalog. -/
def totalEdits (gs : List RepeatGroup) : Nat :=
  (gs.map (fun g => g.edits.length)).sum

/-- Value of a digit string read in base ten. -/
def decValue (l : List Char) : Nat :=
  l.foldl (fun a c => a * 10 + (c.toNat - 48)) 0

/-! ## Example inputs -/

/-- A group with two edits and no identifiers yet. -/
def exTwoEdits : RepeatGroup :=
  { seq := "GATTACA", positions := [⟨0, 3, 3, true⟩], coord := ⟨0, 0, true⟩,
    edits := [⟨2, 71, EditType.mismatch⟩, ⟨4, 0, EditType.readGap⟩],
    snpIDs := ["stale"], alt_seq := [], base_offset := 10 }

/-- A group with one mismatch edit. -/
def exOneEdit : RepeatGroup :=
  { seq := "AAAACCCCTTTT", positions := [⟨0, 0, 0, true⟩], coord := ⟨0, 0, true⟩,
    edits := [⟨7, 71, EditType.mismatch⟩], snpIDs := [], alt_seq := [],
    base_offset := 0 }


/-! ## Rows of the variant file -/

/-- Text of one row: the fields separated by tabs, then a newline. -/
def rowText (fields : List String) : String := String.intercalate "\t" fields ++ "\n"

/-- Text of a sequence of rows. -/
def rowsText (rows : List (List String)) : String := String.join (rows.map rowText)

/-- Number of read-gap edits among `edits[0..i)`. -/
def rdGapsBefore (edits : List Edit) (i : Nat) : Nat :=
  (edits.take i).countP Edit.isReadGap

/-- Number of ref-gap edits among `edits[0..i)`. -/
def rfGapsBefore (edits : List Edit) (i : Nat) : Nat :=
  (edits.take i).countP Edit.isRefGap

/-- The position that the specification states for the row of edit `i` at
position `pos`: `base_offset + coord.off() + pos` plus the read gaps and minus
the ref gaps among `edits[0..i)`, as an exact integer. -/
def statedPosition (g : RepeatGroup) (i : Nat) (pos : Nat) : Int :=
  (g.base_offset : Int) + g.coord.off + (pos : Int)
    + (rdGapsBefore g.edits i : Int) - (rfGapsBefore g.edits i : Int)

/-- Kind field written for an edit. -/
def kindText (e : Edit) : String :=
  match e.type with
  | EditType.mismatch => "single"
  | EditType.readGap => "deletion"
  | EditType.refGap => "insertion"
  | EditType.other => ""

/-- Allele field written for an edit. -/
def alleleText (qchrText : Nat → String) (e : Edit) : String :=
  match e.type with
  | EditType.mismatch => qchrText e.qchr
  | EditType.readGap => "1"
  | EditType.refGap => charText e.qchr
  | EditType.other => ""

/-- The rows that the loop of `writeSNPs` writes for the edits that remain,
as lists of fields. -/
def rowsLoop (qchrText : Nat → String) (snpIDs : List String) (rep_chr_name : String)
    (ref_base : Nat) : List Edit → Nat → Int → Int → List (List String)
  | [], _, _, _ => []
  | ed :: rest, i, rd_gaps, rf_gaps =>
    [snpIDs.getD i "", kindText ed, rep_chr_name,
      toString (snpPos ref_base ed rd_gaps rf_gaps), alleleText qchrText ed] ::
    rowsLoop qchrText snpIDs rep_chr_name ref_base rest (i + 1)
      (if ed.isReadGap then wrapInt (rd_gaps + 1) else rd_gaps)
      (if ed.isRefGap then wrapInt (rf_gaps + 1) else rf_gaps)

/-- A group whose first edit is a ref gap at position 0, followed by a
mismatch at position 0. -/
def exRefGapFirst : RepeatGroup :=
  { seq := "ACGT", positions := [⟨0, 0, 0, true⟩], coord := ⟨0, 0, true⟩,
    edits := [⟨0, 65, EditType.refGap⟩, ⟨0, 71, EditType.mismatch⟩],
    snpIDs := ["rps0", "rps1"], alt_seq := [], base_offset := 0 }

/-- A group with a mismatch, a read gap and a ref gap, identifiers assigned. -/
def exThreeKinds : RepeatGroup :=
  { seq := "GATTACA", positions := [⟨0, 3, 3, true⟩], coord := ⟨0, 20, true⟩,
    edits := [⟨1, 71, EditType.mismatch⟩, ⟨3, 0, EditType.readGap⟩,
      ⟨5, 84, EditType.refGap⟩],
    snpIDs := ["rps0", "rps1", "rps2"], alt_seq := [], base_offset := 100 }

/-- A group whose only edit is a read gap (a deletion) at position 5. -/
def exOneReadGap : RepeatGroup :=
  { seq := "GATTACA", positions := [⟨0, 3, 3, true⟩], coord := ⟨0, 0, true⟩,
    edits := [⟨5, 0, EditType.readGap⟩], snpIDs := ["rps0"], alt_seq := [],
    base_offset := 100 }

/-- A group whose only edit is a ref gap (an insertion) at position 5. -/
def exOneRefGap : RepeatGroup :=
  { seq := "GATTACA", positions := [⟨0, 3, 3, true⟩], coord := ⟨0, 0, true⟩,
    edits := [⟨5, 84, EditType.refGap⟩], snpIDs := ["rps0"], alt_seq := [],
    base_offset := 100 }

/-- The identifiers after the first one, each preceded by a comma. -/
def commaTail : List String → String
  | [] => ""
  | id :: ids => "," ++ id ++ commaTail ids

/-- A tombstoned group (no positions) that still has edits and identifiers. -/
def exTombstoned : RepeatGroup :=
  { seq := "GATACA", positions := [], coord := ⟨0, 0, true⟩,
    edits := [⟨3, 0, EditType.readGap⟩], snpIDs := ["rps4"], alt_seq := [],
    base_offset := 0 }

/-- A group that already carries one alternate. -/
def exWithAlternate : RepeatGroup :=
  { seq := "GATTACA", positions := [⟨0, 9, 9, true⟩], coord := ⟨0, 0, true⟩,
    edits := [], snpIDs := [], alt_seq := [exOneReadGap], base_offset := 0 }

/-- Three fragments that tile `[0, 12)`: lengths 4, 5 and 3. -/
def exFragments : List Fragments :=
  [⟨0, 4, 0, 0, 0, true⟩, ⟨4, 5, 1, 0, 6, false⟩, ⟨9, 3, 2, 1, 0, true⟩]

/-! ## `compareRepeatGroupByJoinedOff` and `SeedExt` -/

/-- Method `RepeatGenerator::compareRepeatGroupByJoinedOff(a, b)`:
`a.positions[0].joinedOff < b.positions[0].joinedOff`; `none` when
`positions[0]` is outside the list of either argument. -/
def compareRepeatGroupByJoinedOff (a b : RepeatGroup) : Option Bool :=
  match a.positions[0]?, b.positions[0]? with
  | some pa, some pb => some (decide (pa.joinedOff < pb.joinedOff))
  | _, _ => none

/-- Joined offset of the first position of a group, when it has one. -/
def firstJoinedOff (g : RepeatGroup) : Option Nat :=
  match g.positions[0]? with
  | some p => some p.joinedOff
  | none => none

/-- The `struct SeedExt`; a `pair` is a product. -/
structure SeedExt where
  orig_pos : Nat × Nat
  pos : Nat × Nat
  bound : Nat × Nat
  ed : Nat
  total_ed : Nat
  done : Bool
  baseoff : Nat
  backbone : Nat
  deriving DecidableEq, Repr

/-- Method `SeedExt::reset()`: every member is assigned. -/
def SeedExt.reset (s : SeedExt) : SeedExt :=
  let s := { s with done := false }
  let s := { s with total_ed := 0 }
  let s := { s with ed := s.total_ed }
  let s := { s with orig_pos := (0, s.orig_pos.2) }
  let s := { s with orig_pos := (s.orig_pos.1, 0) }
  let s := { s with pos := (0, s.pos.2) }
  let s := { s with pos := (s.pos.1, 0) }
  let s := { s with bound := (0, s.bound.2) }
  let s := { s with bound := (s.bound.1, 0) }
  let s := { s with baseoff := 0 }
  { s with backbone := 0 }

/-- Constructor `SeedExt::SeedExt()`: `reset()` on the members as they are
found, `raw` being their indeterminate content. -/
def SeedExt.construct (raw : SeedExt) : SeedExt := raw.reset

/-- A seed in the middle of an extension. -/
def exSeed : SeedExt :=
  { orig_pos := (40, 44), pos := (36, 50), bound := (30, 60), ed := 1, total_ed := 2,
    done := true, baseoff := 17, backbone := 3 }

/-- A live group whose first position has joined offset 3 (`exOneEdit` has
joined offset 0, `exWithAlternate` joined offset 9). -/
def exLiveThree : RepeatGroup :=
  { seq := "ACGT", positions := [⟨0, 3, 3, true⟩, ⟨1, 0, 20, true⟩],
    coord := ⟨0, 0, true⟩, edits := [], snpIDs := [], alt_seq := [], base_offset := 0 }

/-! ## Allele text, well-ordered edits -/

/-- Modelled from the spec: the text that `fp << edits[i].qchr` writes for a
mismatch.  The header `edit.h`, which declares `Edit::qchr`, is not part of
the source under study; the spec's variant row carries the allele as the
character itself (allele `G` for a `C` to `G` mismatch), so `qchr` is taken
to be of a character type and the insertion writes that one character. -/
def qchrStreamText (c : Nat) : String := String.singleton (Char.ofNat (c % 256))

/-- The group of the scenario with a `C` to `G` mismatch, identifier assigned. -/
def exMismatchG : RepeatGroup :=
  { seq := "AAAACCCCTTTT", positions := [⟨0, 0, 0, true⟩], coord := ⟨0, 0, true⟩,
    edits := [⟨7, 71, EditType.mismatch⟩], snpIDs := ["rps0"], alt_seq := [],
    base_offset := 0 }

theorem decValue_append_singleton (l : List Char) (c : Char) :
    decValue (l ++ [c]) = decValue l * 10 + (c.toNat - 48) := by
  simp [decValue, List.foldl_append]

theorem digitChar_value (d : Nat) (h : d < 10) :
    (Nat.digitChar d).toNat - 48 = d ∧ Nat.digitChar d ≠ '-' := by
  interval_cases d <;> decide

theorem toDigitsCore_spec (fuel : Nat) : ∀ (n : Nat) (acc : List Char), n < fuel →
    ∃ d : List Char, Nat.toDigitsCore 10 fuel n acc = d ++ acc ∧ decValue d = n ∧
      ∀ c ∈ d, c ≠ '-' := by
  induction fuel with
  | zero => intro n acc h; omega
  | succ f ih =>
    intro n acc h
    have hd := digitChar_value (n % 10) (Nat.mod_lt _ (by decide))
    by_cases h0 : n / 10 = 0
    · refine ⟨[Nat.digitChar (n % 10)], ?_, ?_, ?_⟩
      · simp [Nat.toDigitsCore, h0]
      · simp [decValue, hd.1]; omega
      · intro c hc
        simp at hc
        rw [hc]; exact hd.2
    · obtain ⟨d, hd1, hd2, hd3⟩ := ih (n / 10) (Nat.digitChar (n % 10) :: acc) (by omega)
      refine ⟨d ++ [Nat.digitChar (n % 10)], ?_, ?_, ?_⟩
      · simp [Nat.toDigitsCore, h0, hd1]
      · rw [decValue_append_singleton, hd2, hd.1]; omega
      · intro c hc
        rcases List.mem_append.1 hc with hc | hc
        · exact hd3 c hc
        · simp at hc
          rw [hc]; exact hd.2

theorem natRepr_spec (n : Nat) :
    decValue (toString n).data = n ∧ ∀ c ∈ (toString n).data, c ≠ '-' := by
  obtain ⟨d, hd1, hd2, hd3⟩ := toDigitsCore_spec (n + 1) n [] (Nat.lt_succ_self n)
  have : (toString n).data = d := by
    show (Nat.repr n).data = d
    simp [Nat.repr, Nat.toDigits, hd1, List.asString]
  rw [this]
  exact ⟨hd2, hd3⟩

theorem natToString_injective (a b : Nat) (h : toString a = toString b) : a = b := by
  have ha := (natRepr_spec a).1
  rw [h, (natRepr_spec b).1] at ha
  exact ha.symm

theorem rps_injective (s t : String) (h : "rps" ++ s = "rps" ++ t) : s = t := by
  apply String.ext
  have := congrArg String.data h
  simpa [String.data_append] using this

/-! ## Machine integer lemmas -/

theorem wrapInt_of_lt (n : Nat) (h : n < 2 ^ 31) : wrapInt (n : Int) = (n : Int) := by
  unfold wrapInt; omega

/-! ## `buildSNPs` -/

theorem std_to_string_injective (a b : Nat) (h : std_to_string a = std_to_string b) :
    a = b :=
  natToString_injective a b h

theorem buildSNPsLoop_length (k : Nat) : ∀ (ids : List String) (n : Nat),
    (buildSNPsLoop k ids n).1.length = ids.length + k := by
  induction k with
  | zero => intro ids n; rfl
  | succ k ih =>
    intro ids n
    rw [buildSNPsLoop, ih, List.length_append, List.length_singleton]
    omega

theorem buildSNPsLoop_ids (k : Nat) : ∀ (ids : List String) (n : Nat), n < SIZE_T_MOD →
    (buildSNPsLoop k ids n).1 =
      ids ++ (List.range k).map (fun i => "rps" ++ std_to_string ((n + i) % SIZE_T_MOD)) := by
  induction k with
  | zero =>
    intro ids n _
    simp only [buildSNPsLoop, List.range_zero, List.map_nil, List.append_nil]
  | succ k ih =>
    intro ids n hn
    have hlt : (n + 1) % SIZE_T_MOD < SIZE_T_MOD := Nat.mod_lt _ (by decide)
    have hmap : List.map
        (fun i => "rps" ++ std_to_string (((n + 1) % SIZE_T_MOD + i) % SIZE_T_MOD))
        (List.range k) =
        List.map ((fun i => "rps" ++ std_to_string ((n + i) % SIZE_T_MOD)) ∘ Nat.succ)
          (List.range k) := by
      apply List.map_congr_left
      intro i _
      have harith : ((n + 1) % SIZE_T_MOD + i) % SIZE_T_MOD = (n + (i + 1)) % SIZE_T_MOD := by
        unfold SIZE_T_MOD; omega
      rw [Function.comp_apply, Nat.succ_eq_add_one, harith]
    have hhead : (n + 0) % SIZE_T_MOD = n := by
      rw [Nat.add_zero]; exact Nat.mod_eq_of_lt hn
    rw [buildSNPsLoop, ih _ _ hlt, List.range_succ_eq_map, List.map_cons, List.map_map,
      List.append_assoc, List.singleton_append, hmap, hhead]

theorem buildSNPsLoop_counter (k : Nat) : ∀ (ids : List String) (n : Nat), n < SIZE_T_MOD →
    (buildSNPsLoop k ids n).2 = (n + k) % SIZE_T_MOD := by
  induction k with
  | zero =>
    intro ids n hn
    rw [buildSNPsLoop, Nat.add_zero]; exact (Nat.mod_eq_of_lt hn).symm
  | succ k ih =>
    intro ids n _
    rw [buildSNPsLoop, ih _ _ (Nat.mod_lt _ (by decide))]
    unfold SIZE_T_MOD; omega

theorem buildSNPs_length (g : RepeatGroup) (n : Nat) :
    (g.buildSNPs n).1.snpIDs.length = g.edits.length := by
  show (buildSNPsLoop g.edits.length [] n).1.length = g.edits.length
  rw [buildSNPsLoop_length, List.length_nil, Nat.zero_add]

theorem buildSNPs_ids (g : RepeatGroup) (n : Nat) (hn : n < SIZE_T_MOD) :
    (g.buildSNPs n).1.snpIDs =
      (List.range g.edits.length).map
        (fun i => "rps" ++ std_to_string ((n + i) % SIZE_T_MOD)) := by
  show (buildSNPsLoop g.edits.length [] n).1 = _
  rw [buildSNPsLoop_ids _ _ _ hn, List.nil_append]

theorem buildSNPs_counter (g : RepeatGroup) (n : Nat) (hn : n < SIZE_T_MOD) :
    (g.buildSNPs n).2 = (n + g.edits.length) % SIZE_T_MOD :=
  buildSNPsLoop_counter _ _ _ hn

/-- C1 (amended): when `n + edits.size() < 2 ^ 64`, after `buildSNPs(n)` the
list `snpIDs` has exactly `edits.size()` entries (the previous ones are
discarded), the `i`-th entry is `rps` followed by the decimal text of `n + i`,
the counter is `n + edits.size()`, and `edits`, `seq`, `positions`, `coord`,
`alt_seq` and `base_offset` are unchanged. -/
theorem buildSNPs_contract (g : RepeatGroup) (n : Nat)
    (h : n + g.edits.length < 2 ^ 64) :
    (g.buildSNPs n).1.snpIDs.length = g.edits.length ∧
    (∀ i, i < g.edits.length →
      (g.buildSNPs n).1.snpIDs[i]? = some ("rps" ++ toString (n + i))) ∧
    (g.buildSNPs n).2 = n + g.edits.length ∧
    (g.buildSNPs n).1.edits = g.edits ∧
    (g.buildSNPs n).1.seq = g.seq ∧
    (g.buildSNPs n).1.positions = g.positions ∧
    (g.buildSNPs n).1.coord = g.coord ∧
    (g.buildSNPs n).1.alt_seq = g.alt_seq ∧
    (g.buildSNPs n).1.base_offset = g.base_offset := by
  have hn : n < SIZE_T_MOD := by unfold SIZE_T_MOD; omega
  refine ⟨buildSNPs_length g n, ?_, ?_, rfl, rfl, rfl, rfl, rfl, rfl⟩
  · intro i hi
    have hmod : (n + i) % SIZE_T_MOD = n + i :=
      Nat.mod_eq_of_lt (by unfold SIZE_T_MOD; omega)
    rw [buildSNPs_ids g n hn, List.getElem?_map, List.getElem?_range hi, Option.map_some',
      hmod]
    rfl
  · rw [buildSNPs_counter g n hn]
    exact Nat.mod_eq_of_lt (by unfold SIZE_T_MOD; omega)

/-- Witness of `buildSNPs_contract`: two edits, counter `2 ^ 31 - 1`. -/
theorem buildSNPs_contract_witness :
    2147483647 + exTwoEdits.edits.length < 2 ^ 64 ∧
    (exTwoEdits.buildSNPs 2147483647).1.snpIDs[1]? =
      some ("rps" ++ toString (2147483647 + 1)) ∧
    (exTwoEdits.buildSNPs 2147483647).1.snpIDs = ["rps2147483647", "rps2147483648"] ∧
    (exTwoEdits.buildSNPs 2147483647).2 = 2147483647 + exTwoEdits.edits.length :=
  ⟨by decide, (buildSNPs_contract exTwoEdits 2147483647 (by decide)).2.1 1 (by decide),
    by decide, (buildSNPs_contract exTwoEdits 2147483647 (by decide)).2.2.1⟩

/-- C1 fails as stated: at the largest counter value `2 ^ 64 - 1` the counter
after `buildSNPs` on a group with one edit is 0, not `n + edits.size()`; and on
a group with two edits the identifiers are `rps18446744073709551615` and then
`rps0`, the second not `rps` followed by the decimal text of `n + 1`. -/
theorem buildSNPs_wrap_counterexample :
    (exOneEdit.buildSNPs 18446744073709551615).2 = 0 ∧
    (exOneEdit.buildSNPs 18446744073709551615).2 ≠
      18446744073709551615 + exOneEdit.edits.length ∧
    (exTwoEdits.buildSNPs 18446744073709551615).1.snpIDs =
      ["rps18446744073709551615", "rps0"] ∧
    (exTwoEdits.buildSNPs 18446744073709551615).1.snpIDs[1]? ≠
      some ("rps" ++ toString (18446744073709551615 + 1)) := by
  decide

/-! ## Variant ID uniqueness -/

theorem allSnpIDs_cons (g : RepeatGroup) (gs : List RepeatGroup) :
    allSnpIDs (g :: gs) = g.snpIDs ++ allSnpIDs gs := by
  simp [allSnpIDs]

theorem totalEdits_cons (g : RepeatGroup) (gs : List RepeatGroup) :
    totalEdits (g :: gs) = g.edits.length + totalEdits gs := by
  simp [totalEdits]

theorem buildSNPsAll_ids (gs : List RepeatGroup) : ∀ n : Nat, n < SIZE_T_MOD →
    allSnpIDs (buildSNPsAll gs n).1 =
      (List.range (totalEdits gs)).map
        (fun i => "rps" ++ std_to_string ((n + i) % SIZE_T_MOD)) := by
  induction gs with
  | nil => intro n _; rfl
  | cons g gs ih =>
    intro n hn
    have hc := buildSNPs_counter g n hn
    have hlt : (g.buildSNPs n).2 < SIZE_T_MOD := by
      rw [hc]; exact Nat.mod_lt _ (by decide)
    have hmap : List.map
        (fun i => "rps" ++ std_to_string (((g.buildSNPs n).2 + i) % SIZE_T_MOD))
        (List.range (totalEdits gs)) =
        List.map ((fun i => "rps" ++ std_to_string ((n + i) % SIZE_T_MOD)) ∘
          (fun i => g.edits.length + i)) (List.range (totalEdits gs)) := by
      apply List.map_congr_left
      intro i _
      have harith : ((g.buildSNPs n).2 + i) % SIZE_T_MOD =
          (n + (g.edits.length + i)) % SIZE_T_MOD := by
        rw [hc]; unfold SIZE_T_MOD; omega
      rw [Function.comp_apply, harith]
    rw [buildSNPsAll, allSnpIDs_cons, ih _ hlt, buildSNPs_ids g n hn, totalEdits_cons,
      List.range_add, List.map_append, List.map_map, hmap]

/-- C2: `buildSNPs` on each group in turn with one shared counter, started at
any `size_t` value, gives identifiers that are pairwise distinct over the
whole catalog, within a group and across groups.  The catalog is one that
memory can hold: its edits, each an object of the 64-bit address space, are at
most `2 ^ 64` in all. -/
theorem buildSNPsAll_nodup (gs : List RepeatGroup) (n : Nat) (hn : n < 2 ^ 64)
    (h : totalEdits gs ≤ 2 ^ 64) : (allSnpIDs (buildSNPsAll gs n).1).Nodup := by
  rw [buildSNPsAll_ids gs n (by unfold SIZE_T_MOD; omega)]
  refine List.Nodup.map_on ?_ (List.nodup_range _)
  intro i hi j hj hij
  have hi2 := List.mem_range.1 hi
  have hj2 := List.mem_range.1 hj
  have hmod := std_to_string_injective _ _ (rps_injective _ _ hij)
  unfold SIZE_T_MOD at hmod
  omega

/-- Witness of `buildSNPsAll_nodup`: a catalog of two groups, three edits,
numbered from `2 ^ 64 - 2`. -/
theorem buildSNPsAll_nodup_witness :
    (18446744073709551614 : Nat) < 2 ^ 64 ∧
    totalEdits [exTwoEdits, exOneEdit] ≤ 2 ^ 64 ∧
    allSnpIDs (buildSNPsAll [exTwoEdits, exOneEdit] 18446744073709551614).1 =
      ["rps18446744073709551614", "rps18446744073709551615", "rps0"] ∧
    (allSnpIDs (buildSNPsAll [exTwoEdits, exOneEdit] 18446744073709551614).1).Nodup :=
  ⟨by decide, by decide, by decide,
    buildSNPsAll_nodup [exTwoEdits, exOneEdit] 18446744073709551614 (by decide)
      (by decide)⟩

/-! ## `writeSNPs` -/

theorem stringFoldl_append (l : List String) : ∀ s : String,
    l.foldl (fun a b => a ++ b) s = s ++ l.foldl (fun a b => a ++ b) "" := by
  induction l with
  | nil => intro s; simp
  | cons x xs ih =>
    intro s
    rw [List.foldl_cons, List.foldl_cons, ih (s ++ x), ih ("" ++ x), String.empty_append,
      String.append_assoc]

theorem rowsText_cons (r : List String) (rows : List (List String)) :
    rowsText (r :: rows) = rowText r ++ rowsText rows := by
  unfold rowsText String.join
  rw [List.map_cons, List.foldl_cons, stringFoldl_append, String.empty_append]

theorem rowsText_nil : rowsText [] = "" := rfl

theorem rowText_five (a b c d e : String) :
    rowText [a, b, c, d, e] = a ++ ("\t" ++ (b ++ ("\t" ++ (c ++ ("\t" ++ (d ++ ("\t" ++ (e ++ "\n")))))))) := by
  simp only [rowText, String.intercalate, String.intercalate.go, String.append_assoc]

theorem assertGeqPos_true (ed : Edit) (rd rf : Int) : assertGeqPos ed rd rf = true := by
  simp [assertGeqPos]

theorem writeSNPsLoop_eq (qchrText : Nat → String) (snpIDs : List String) (chr : String)
    (rb : Nat) (rest : List Edit) : ∀ (i : Nat) (rd rf : Int) (fp : String),
    (∀ e ∈ rest, e.isMismatch = true ∨ e.isReadGap = true ∨ e.isRefGap = true) →
    i + rest.length ≤ snpIDs.length →
    writeSNPsLoop qchrText snpIDs chr rb rest i rd rf fp =
      some (fp ++ rowsText (rowsLoop qchrText snpIDs chr rb rest i rd rf)) := by
  induction rest with
  | nil =>
    intro i rd rf fp _ _
    rw [writeSNPsLoop, rowsLoop, rowsText_nil, String.append_empty]
  | cons ed rest ih =>
    intro i rd rf fp hk hlen
    have hlen2 : i + 1 + rest.length ≤ snpIDs.length := by
      simp only [List.length_cons] at hlen; omega
    have hi : i < snpIDs.length := by omega
    have hid : snpIDs[i]? = some (snpIDs.getD i "") := by
      rw [List.getD_eq_getElem?_getD, List.getElem?_eq_getElem hi]; rfl
    have hk2 : ∀ e ∈ rest, e.isMismatch = true ∨ e.isReadGap = true ∨ e.isRefGap = true :=
      fun e he => hk e (List.mem_cons_of_mem _ he)
    have hke := hk ed (List.mem_cons_self _ _)
    rw [writeSNPsLoop, rowsLoop, rowsText_cons, rowText_five, assertGeqPos_true]
    cases ht : ed.type with
    | mismatch =>
      have h1 : ed.isMismatch = true := by simp [Edit.isMismatch, ht]
      have h2 : ed.isReadGap = false := by simp [Edit.isReadGap, ht]
      have h3 : ed.isRefGap = false := by simp [Edit.isRefGap, ht]
      simp only [h1, h2, h3, hid, Bool.not_true, Bool.false_eq_true, if_false, if_true]
      rw [ih (i + 1) rd rf _ hk2 hlen2]
      simp only [kindText, alleleText, ht, String.append_assoc]
    | readGap =>
      have h1 : ed.isMismatch = false := by simp [Edit.isMismatch, ht]
      have h2 : ed.isReadGap = true := by simp [Edit.isReadGap, ht]
      have h3 : ed.isRefGap = false := by simp [Edit.isRefGap, ht]
      simp only [h1, h2, h3, hid, Bool.not_true, Bool.false_eq_true, if_false, if_true]
      rw [ih (i + 1) _ rf _ hk2 hlen2]
      simp only [kindText, alleleText, ht, String.append_assoc]
    | refGap =>
      have h1 : ed.isMismatch = false := by simp [Edit.isMismatch, ht]
      have h2 : ed.isReadGap = false := by simp [Edit.isReadGap, ht]
      have h3 : ed.isRefGap = true := by simp [Edit.isRefGap, ht]
      simp only [h1, h2, h3, hid, Bool.not_true, Bool.false_eq_true, if_false, if_true]
      rw [ih (i + 1) rd _ _ hk2 hlen2]
      simp only [kindText, alleleText, ht, String.append_assoc]
    | other =>
      exfalso
      simp [Edit.isMismatch, Edit.isReadGap, Edit.isRefGap, ht] at hke

theorem rowsLoop_length (qchrText : Nat → String) (snpIDs : List String) (chr : String)
    (rb : Nat) (rest : List Edit) : ∀ (i : Nat) (rd rf : Int),
    (rowsLoop qchrText snpIDs chr rb rest i rd rf).length = rest.length := by
  induction rest with
  | nil => intro i rd rf; rfl
  | cons ed rest ih => intro i rd rf; rw [rowsLoop, List.length_cons, ih, List.length_cons]

theorem wrapInt_step (R : Nat) (b : Bool) :
    (if b = true then wrapInt (wrapInt (R : Int) + 1) else wrapInt (R : Int)) =
      wrapInt ((R + (if b = true then 1 else 0) : Nat) : Int) := by
  cases b
  · simp
  · simp only [if_true]; unfold wrapInt; omega

theorem rowsLoop_get (qchrText : Nat → String) (snpIDs : List String) (chr : String)
    (rb : Nat) (rest : List Edit) : ∀ (i R F j : Nat) (e : Edit), rest[j]? = some e →
    (rowsLoop qchrText snpIDs chr rb rest i (wrapInt (R : Int)) (wrapInt (F : Int)))[j]? =
      some [snpIDs.getD (i + j) "", kindText e, chr,
        toString (snpPos rb e
          (wrapInt ((R + (rest.take j).countP Edit.isReadGap : Nat) : Int))
          (wrapInt ((F + (rest.take j).countP Edit.isRefGap : Nat) : Int))),
        alleleText qchrText e] := by
  induction rest with
  | nil => intro i R F j e h; simp at h
  | cons ed rest ih =>
    intro i R F j e h
    cases j with
    | zero =>
      simp only [List.getElem?_cons_zero, Option.some.injEq] at h
      subst h
      rw [rowsLoop, List.getElem?_cons_zero]
      simp only [List.take_zero, List.countP_nil, Nat.add_zero]
    | succ j =>
      rw [List.getElem?_cons_succ] at h
      rw [rowsLoop, List.getElem?_cons_succ, wrapInt_step, wrapInt_step, ih _ _ _ j e h]
      have hi : i + 1 + j = i + (j + 1) := by omega
      have hR : R + (if ed.isReadGap = true then 1 else 0) + (rest.take j).countP Edit.isReadGap
          = R + ((ed :: rest).take (j + 1)).countP Edit.isReadGap := by
        rw [List.take_succ_cons, List.countP_cons]; omega
      have hF : F + (if ed.isRefGap = true then 1 else 0) + (rest.take j).countP Edit.isRefGap
          = F + ((ed :: rest).take (j + 1)).countP Edit.isRefGap := by
        rw [List.take_succ_cons, List.countP_cons]; omega
      rw [hi, hR, hF]

theorem snpPos_ref_base (g : RepeatGroup) (e : Edit) (rd rf : Int) :
    snpPos g.ref_base e rd rf =
      wrapSize ((g.base_offset : Int) + g.coord.off + (e.pos : Int) + rd - rf) := by
  unfold snpPos RepeatGroup.ref_base wrapSize; omega

theorem writeSNPs_eq (qchrText : Nat → String) (g : RepeatGroup) (fp chr : String)
    (hk : ∀ e ∈ g.edits, e.isMismatch = true ∨ e.isReadGap = true ∨ e.isRefGap = true)
    (hs : g.edits.length ≤ g.snpIDs.length) :
    g.writeSNPs qchrText fp chr =
      some (g, fp ++ rowsText (rowsLoop qchrText g.snpIDs chr g.ref_base g.edits 0 0 0)) := by
  unfold RepeatGroup.writeSNPs
  rw [writeSNPsLoop_eq qchrText g.snpIDs chr g.ref_base g.edits 0 0 0 fp hk (by omega)]

theorem kindText_iff (e : Edit)
    (hk : e.isMismatch = true ∨ e.isReadGap = true ∨ e.isRefGap = true) :
    (kindText e = "single" ↔ e.isMismatch = true) ∧
    (kindText e = "deletion" ↔ e.isReadGap = true) ∧
    (kindText e = "insertion" ↔ e.isRefGap = true) := by
  cases ht : e.type <;>
    simp [kindText, Edit.isMismatch, Edit.isReadGap, Edit.isRefGap, ht] at hk ⊢

/-- C3 (amended): for a group whose edits are each a mismatch, a read gap or a
ref gap and whose `snpIDs` has an entry for every edit, `writeSNPs` writes one
row per edit, and the position field of the row of the `i`-th edit is the
decimal text of `base_offset + coord.off() + edits[i].pos` plus the number of
read gaps and minus the number of ref gaps among `edits[0..i)`, the counts
taken as `int` and the sum reduced modulo `2 ^ 64`.  With fewer than `2 ^ 31`
edits it is the stated sum modulo `2 ^ 64`, and the stated sum itself when
that lies in `[0, 2 ^ 64)`. -/
theorem writeSNPs_position (qchrText : Nat → String) (g : RepeatGroup) (fp chr : String)
    (hk : ∀ e ∈ g.edits, e.isMismatch = true ∨ e.isReadGap = true ∨ e.isRefGap = true)
    (hs : g.edits.length ≤ g.snpIDs.length) :
    ∃ rows : List (List String),
      g.writeSNPs qchrText fp chr = some (g, fp ++ rowsText rows) ∧
      rows.length = g.edits.length ∧
      ∀ (i : Nat) (e : Edit), g.edits[i]? = some e →
        ∃ (id kind allele : String) (p : Nat),
          rows[i]? = some [id, kind, chr, toString p, allele] ∧
          p = wrapSize ((g.base_offset : Int) + g.coord.off + (e.pos : Int)
                + wrapInt (rdGapsBefore g.edits i : Int)
                - wrapInt (rfGapsBefore g.edits i : Int)) ∧
          (g.edits.length < 2 ^ 31 → p = wrapSize (statedPosition g i e.pos)) ∧
          (g.edits.length < 2 ^ 31 → 0 ≤ statedPosition g i e.pos →
            statedPosition g i e.pos < 2 ^ 64 → (p : Int) = statedPosition g i e.pos) := by
  refine ⟨_, writeSNPs_eq qchrText g fp chr hk hs, rowsLoop_length _ _ _ _ _ _ _ _, ?_⟩
  intro i e hie
  have hrow := rowsLoop_get qchrText g.snpIDs chr g.ref_base g.edits 0 0 0 i e hie
  simp only [Nat.cast_zero, Nat.zero_add] at hrow
  have hw0 : wrapInt 0 = 0 := by decide
  rw [hw0, snpPos_ref_base] at hrow
  have hrd : rdGapsBefore g.edits i ≤ g.edits.length := by
    unfold rdGapsBefore
    exact le_trans (List.countP_le_length _)
      (by rw [List.length_take]; exact Nat.min_le_right _ _)
  have hrf : rfGapsBefore g.edits i ≤ g.edits.length := by
    unfold rfGapsBefore
    exact le_trans (List.countP_le_length _)
      (by rw [List.length_take]; exact Nat.min_le_right _ _)
  refine ⟨_, _, _, _, hrow, rfl, ?_, ?_⟩
  · intro hlt
    rw [show (List.countP Edit.isReadGap (List.take i g.edits)) = rdGapsBefore g.edits i from rfl,
      show (List.countP Edit.isRefGap (List.take i g.edits)) = rfGapsBefore g.edits i from rfl,
      wrapInt_of_lt _ (by omega), wrapInt_of_lt _ (by omega)]
    rfl
  · intro hlt h0 h1
    rw [show (List.countP Edit.isReadGap (List.take i g.edits)) = rdGapsBefore g.edits i from rfl,
      show (List.countP Edit.isRefGap (List.take i g.edits)) = rfGapsBefore g.edits i from rfl,
      wrapInt_of_lt _ (by omega), wrapInt_of_lt _ (by omega)]
    unfold statedPosition at h0 h1 ⊢
    unfold wrapSize
    omega

/-- Witness of `writeSNPs_position`: a group with one edit of each kind. -/
theorem writeSNPs_position_witness :
    (∀ e ∈ exThreeKinds.edits,
      e.isMismatch = true ∨ e.isReadGap = true ∨ e.isRefGap = true) ∧
    exThreeKinds.edits.length ≤ exThreeKinds.snpIDs.length ∧
    ∃ rows : List (List String),
      exThreeKinds.writeSNPs charText "" "chr1" = some (exThreeKinds, "" ++ rowsText rows) ∧
      rows.length = exThreeKinds.edits.length :=
  ⟨by decide, by decide,
    (writeSNPs_position charText exThreeKinds "" "chr1" (by decide) (by decide)).imp
      (fun _ h => ⟨h.1, h.2.1⟩)⟩

/-- C3 fails as stated: for a ref gap at position 0 followed by a mismatch at
position 0 (base offset 0, coordinate offset 0) the stated position of the
second row is `-1`, and the position field written is `18446744073709551615`. -/
theorem writeSNPs_position_counterexample :
    (exRefGapFirst.writeSNPs charText "" "chr1").map Prod.snd =
      some "rps0\tinsertion\tchr1\t0\tA\nrps1\tsingle\tchr1\t18446744073709551615\tG\n" ∧
    statedPosition exRefGapFirst 1 0 = -1 := by
  decide

/-- C4: for a group whose edits are each a mismatch, a read gap or a ref gap
and whose `snpIDs` has one entry per edit, `writeSNPs` appends exactly
`edits.size()` newline-terminated rows in edit order, each of five
tab-separated fields, and nothing else; in row `i` the first field is
`snpIDs[i]`, the second is `single` iff edit `i` is a mismatch, `deletion` iff
it is a read gap and `insertion` iff it is a ref gap, the third is the
chromosome name, the fourth is the decimal text of the position and the fifth
is the allele text of the edit (the text of `qchr` for a mismatch, `1` for a
read gap, the character `qchr` for a ref gap); the group is returned
unchanged. -/
theorem writeSNPs_row_structure (qchrText : Nat → String) (g : RepeatGroup)
    (fp chr : String)
    (hk : ∀ e ∈ g.edits, e.isMismatch = true ∨ e.isReadGap = true ∨ e.isRefGap = true)
    (hs : g.snpIDs.length = g.edits.length) :
    ∃ rows : List (List String),
      g.writeSNPs qchrText fp chr = some (g, fp ++ rowsText rows) ∧
      rows.length = g.edits.length ∧
      ∀ (i : Nat) (e : Edit), g.edits[i]? = some e →
        ∃ (id kind allele : String) (p : Nat),
          rows[i]? = some [id, kind, chr, toString p, allele] ∧
          g.snpIDs[i]? = some id ∧
          (kind = "single" ↔ e.isMismatch = true) ∧
          (kind = "deletion" ↔ e.isReadGap = true) ∧
          (kind = "insertion" ↔ e.isRefGap = true) ∧
          p = wrapSize ((g.base_offset : Int) + g.coord.off + (e.pos : Int)
                + wrapInt (rdGapsBefore g.edits i : Int)
                - wrapInt (rfGapsBefore g.edits i : Int)) ∧
          (e.isMismatch = true → allele = qchrText e.qchr) ∧
          (e.isReadGap = true → allele = "1") ∧
          (e.isRefGap = true → allele = charText e.qchr) := by
  refine ⟨_, writeSNPs_eq qchrText g fp chr hk (by omega), rowsLoop_length _ _ _ _ _ _ _ _, ?_⟩
  intro i e hie
  have hrow := rowsLoop_get qchrText g.snpIDs chr g.ref_base g.edits 0 0 0 i e hie
  simp only [Nat.cast_zero, Nat.zero_add] at hrow
  have hw0 : wrapInt 0 = 0 := by decide
  rw [hw0, snpPos_ref_base] at hrow
  have hi : i < g.snpIDs.length := by
    rw [hs]
    by_contra hcon
    rw [List.getElem?_eq_none (by omega)] at hie
    exact Option.noConfusion hie
  have hid : g.snpIDs[i]? = some (g.snpIDs.getD i "") := by
    rw [List.getD_eq_getElem?_getD, List.getElem?_eq_getElem hi]; rfl
  have hke := hk e (List.getElem?_mem hie)
  have hki := kindText_iff e hke
  have hal : (e.isMismatch = true → alleleText qchrText e = qchrText e.qchr) ∧
      (e.isReadGap = true → alleleText qchrText e = "1") ∧
      (e.isRefGap = true → alleleText qchrText e = charText e.qchr) := by
    cases ht : e.type <;>
      simp [alleleText, Edit.isMismatch, Edit.isReadGap, Edit.isRefGap, ht]
  exact ⟨_, _, _, _, hrow, hid, hki.1, hki.2.1, hki.2.2, rfl, hal.1, hal.2.1, hal.2.2⟩

/-- Witness of `writeSNPs_row_structure`: a group with one edit of each kind. -/
theorem writeSNPs_row_structure_witness :
    (∀ e ∈ exThreeKinds.edits,
      e.isMismatch = true ∨ e.isReadGap = true ∨ e.isRefGap = true) ∧
    exThreeKinds.snpIDs.length = exThreeKinds.edits.length ∧
    (exThreeKinds.writeSNPs charText "out:" "chr1").map Prod.snd =
      some "out:rps0\tsingle\tchr1\t121\tG\nrps1\tdeletion\tchr1\t123\t1\nrps2\tinsertion\tchr1\t126\tT\n" ∧
    ∃ rows : List (List String),
      exThreeKinds.writeSNPs charText "out:" "chr1" =
        some (exThreeKinds, "out:" ++ rowsText rows) ∧
      rows.length = exThreeKinds.edits.length :=
  ⟨by decide, by decide, by decide,
    (writeSNPs_row_structure charText exThreeKinds "out:" "chr1" (by decide) (by decide)).imp
      (fun _ h => ⟨h.1, h.2.1⟩)⟩

/-! ## `writeHaploType` -/

/-- C5 at two one-edit groups: for a single read gap at position 5 (base
offset 100) `writeSNPs` writes position 105 and `writeHaploType` writes start
105 and end 106; for a single ref gap at position 5 `writeSNPs` writes
position 105 and `writeHaploType` writes start 105 and end 104. -/
theorem writeHaploType_span_last_gap :
    (exOneReadGap.writeSNPs charText "" "chr1").map Prod.snd =
      some "rps0\tdeletion\tchr1\t105\t1\n" ∧
    (exOneReadGap.writeHaploType "" "chr1" 0).map Prod.snd =
      some ("rpht0\tchr1\t105\t106\trps0\n", 1) ∧
    (exOneRefGap.writeSNPs charText "" "chr1").map Prod.snd =
      some "rps0\tinsertion\tchr1\t105\tT\n" ∧
    (exOneRefGap.writeHaploType "" "chr1" 0).map Prod.snd =
      some ("rpht0\tchr1\t105\t104\trps0\n", 1) := by
  decide

theorem intercalateGo_comma (ids : List String) : ∀ acc : String,
    String.intercalate.go acc "," ids = acc ++ commaTail ids := by
  induction ids with
  | nil => intro acc; rw [String.intercalate.go, commaTail, String.append_empty]
  | cons x xs ih =>
    intro acc
    rw [String.intercalate.go, ih, commaTail]
    simp only [String.append_assoc]

theorem haploIDsLoop_tail (ids : List String) (k : Nat) : ∀ (i : Nat) (fp : String),
    0 < i → i + k = ids.length →
    haploIDsLoop ids k i fp = some (fp ++ commaTail (ids.drop i)) := by
  induction k with
  | zero =>
    intro i fp _ hlen
    rw [haploIDsLoop, List.drop_of_length_le (by omega), commaTail, String.append_empty]
  | succ k ih =>
    intro i fp hi hlen
    have hlt : i < ids.length := by omega
    have hne : (i != 0) = true := by
      simp only [bne_iff_ne, ne_eq]; omega
    rw [haploIDsLoop, List.getElem?_eq_getElem hlt]
    simp only [hne, if_true]
    rw [ih (i + 1) _ (by omega) (by omega), List.drop_eq_getElem_cons hlt, commaTail]
    simp only [String.append_assoc]

theorem haploIDsLoop_eq (ids : List String) (fp : String) (h : 0 < ids.length) :
    haploIDsLoop ids ids.length 0 fp = some (fp ++ String.intercalate "," ids) := by
  cases ids with
  | nil => simp at h
  | cons x xs =>
    rw [List.length_cons, haploIDsLoop, List.getElem?_cons_zero]
    simp only [bne_self_eq_false, Bool.false_eq_true, if_false]
    rw [haploIDsLoop_tail (x :: xs) xs.length 1 (fp ++ x) (by omega)
      (by rw [List.length_cons]; omega)]
    rw [String.intercalate, intercalateGo_comma, List.drop_one, List.tail_cons,
      String.append_assoc]

theorem writeHaploType_eq (g : RepeatGroup) (fp chr : String) (n : Nat) (e0 eN : Edit)
    (h1 : 0 < g.edits.length) (h2 : g.edits.length = g.snpIDs.length)
    (he0 : g.edits[0]? = some e0) (heN : g.edits[g.edits.length - 1]? = some eN) :
    g.writeHaploType fp chr n =
      some (g, fp ++ rowText ["rpht" ++ toString n, chr,
          toString ((g.ref_base + e0.pos % SIZE_T_MOD) % SIZE_T_MOD),
          toString ((g.ref_base + wrapU32 ((eN.pos : Int) + (haploGaps g.edits 0 0).1
            - (haploGaps g.edits 0 0).2)) % SIZE_T_MOD),
          String.intercalate "," g.snpIDs], (n + 1) % SIZE_T_MOD) := by
  have hg : (g.edits.length > 0) = True := by simp [h1]
  have hb : (g.edits.length == g.snpIDs.length) = true := by
    rw [h2]; exact beq_self_eq_true _
  unfold RepeatGroup.writeHaploType
  simp only [hg, hb, decide_True, Bool.not_true, Bool.false_eq_true, if_false]
  rw [he0, heN]
  simp only []
  rw [h2, haploIDsLoop_eq _ _ (by omega), rowText_five]
  simp only [String.append_assoc]

theorem wrapInt_succ (R : Nat) :
    wrapInt (wrapInt (R : Int) + 1) = wrapInt ((R + 1 : Nat) : Int) := by
  unfold wrapInt; omega

theorem haploGaps_eq (l : List Edit) : ∀ R F : Nat,
    haploGaps l (wrapInt (R : Int)) (wrapInt (F : Int)) =
      (wrapInt ((R + l.countP Edit.isReadGap : Nat) : Int),
        wrapInt ((F + l.countP Edit.isRefGap : Nat) : Int)) := by
  induction l with
  | nil => intro R F; rfl
  | cons ed rest ih =>
    intro R F
    rw [haploGaps, List.countP_cons, List.countP_cons]
    cases ht : ed.type with
    | readGap =>
      have h1 : ed.isReadGap = true := by simp [Edit.isReadGap, ht]
      have h2 : ed.isRefGap = false := by simp [Edit.isRefGap, ht]
      simp only [h1, h2, if_true, if_false, Bool.false_eq_true, Nat.add_zero]
      rw [wrapInt_succ, ih (R + 1) F, Nat.add_right_comm R, Nat.add_assoc R]
    | refGap =>
      have h1 : ed.isReadGap = false := by simp [Edit.isReadGap, ht]
      have h2 : ed.isRefGap = true := by simp [Edit.isRefGap, ht]
      simp only [h1, h2, if_true, if_false, Bool.false_eq_true, Nat.add_zero]
      rw [wrapInt_succ, ih R (F + 1), Nat.add_right_comm F, Nat.add_assoc F]
    | mismatch =>
      have h1 : ed.isReadGap = false := by simp [Edit.isReadGap, ht]
      have h2 : ed.isRefGap = false := by simp [Edit.isRefGap, ht]
      simp only [h1, h2, if_false, Bool.false_eq_true, Nat.add_zero]
      rw [ih R F]
    | other =>
      have h1 : ed.isReadGap = false := by simp [Edit.isReadGap, ht]
      have h2 : ed.isRefGap = false := by simp [Edit.isRefGap, ht]
      simp only [h1, h2, if_false, Bool.false_eq_true, Nat.add_zero]
      rw [ih R F]

/-- C6 (amended): for a group with at least one edit and
`edits.size() == snpIDs.size()`, and a counter value `n < 2 ^ 64 - 1`,
`writeHaploType` appends exactly one newline-terminated row of five
tab-separated fields and nothing else: `rpht` followed by the decimal text of
`n`, the chromosome name, the start (the decimal text of
`ref_base + edits[0].pos` in `size_t`), the end (the decimal text of
`ref_base` plus `edits[edits.size()-1].pos + rd_gaps - rf_gaps`, the gaps
counted over all the edits in `int` and the inner sum taken in `uint32_t`),
and the group's `snpIDs` in index order joined by single commas; afterwards
the counter is `n + 1` and the group is unchanged. -/
theorem writeHaploType_row (g : RepeatGroup) (fp chr : String) (n : Nat)
    (h1 : 0 < g.edits.length) (h2 : g.edits.length = g.snpIDs.length)
    (hn : n + 1 < 2 ^ 64) :
    ∃ e0 eN : Edit,
      g.edits[0]? = some e0 ∧ g.edits[g.edits.length - 1]? = some eN ∧
      g.writeHaploType fp chr n =
        some (g, fp ++ rowText ["rpht" ++ toString n, chr,
          toString ((g.ref_base + e0.pos) % SIZE_T_MOD),
          toString ((g.ref_base + wrapU32 ((eN.pos : Int)
            + wrapInt (g.edits.countP Edit.isReadGap : Int)
            - wrapInt (g.edits.countP Edit.isRefGap : Int))) % SIZE_T_MOD),
          String.intercalate "," g.snpIDs], n + 1) := by
  have he0 : g.edits[0]? = some (g.edits[0]) := List.getElem?_eq_getElem h1
  have heN : g.edits[g.edits.length - 1]? = some (g.edits[g.edits.length - 1]) :=
    List.getElem?_eq_getElem (by omega)
  have hc : (n + 1) % SIZE_T_MOD = n + 1 := Nat.mod_eq_of_lt (by unfold SIZE_T_MOD; omega)
  have h := writeHaploType_eq g fp chr n _ _ h1 h2 he0 heN
  have hw0 : wrapInt ((0 : Nat) : Int) = 0 := by decide
  have hgaps := haploGaps_eq g.edits 0 0
  rw [hw0] at hgaps
  have hstart : (g.ref_base + g.edits[0].pos % SIZE_T_MOD) % SIZE_T_MOD =
      (g.ref_base + g.edits[0].pos) % SIZE_T_MOD := by
    unfold SIZE_T_MOD; omega
  rw [hc, hgaps, hstart] at h
  simp only [Nat.zero_add] at h
  exact ⟨_, _, he0, heN, h⟩

/-- Witness of `writeHaploType_row`: a group with one edit of each kind. -/
theorem writeHaploType_row_witness :
    0 < exThreeKinds.edits.length ∧
    exThreeKinds.edits.length = exThreeKinds.snpIDs.length ∧
    7 + 1 < 2 ^ 64 ∧
    (exThreeKinds.writeHaploType "" "chr1" 7).map Prod.snd =
      some ("rpht7\tchr1\t121\t125\trps0,rps1,rps2\n", 8) ∧
    ∃ e0 eN : Edit,
      exThreeKinds.edits[0]? = some e0 ∧
      exThreeKinds.edits[exThreeKinds.edits.length - 1]? = some eN :=
  ⟨by decide, by decide, by decide, by decide,
    (writeHaploType_row exThreeKinds "" "chr1" 7 (by decide) (by decide) (by decide)).imp
      (fun _ h => h.imp (fun _ h2 => ⟨h2.1, h2.2.1⟩))⟩

/-- C6 fails as stated: at the largest counter value `2 ^ 64 - 1` the counter
after `writeHaploType` is 0, not `n + 1`. -/
theorem writeHaploType_counter_counterexample :
    (exThreeKinds.writeHaploType "" "chr1" 18446744073709551615).map
        (fun r => r.2.2) = some 0 ∧
    (exThreeKinds.writeHaploType "" "chr1" 18446744073709551615).map
        (fun r => r.2.2) ≠ some (18446744073709551615 + 1) := by
  decide

/-! ## Tombstoning and `merge` -/

theorem modifyBack_append_singleton {α : Type} (f : α → α) (l : List α) (x : α) :
    modifyBack f (l ++ [x]) = l ++ [f x] := by
  induction l with
  | nil => rfl
  | cons a l ih =>
    cases l with
    | nil => rfl
    | cons b l =>
      rw [List.cons_append, List.cons_append, modifyBack, ← List.cons_append, ih]
      rfl

theorem mergeEdits_alt_seq (g rg : RepeatGroup) (ed : List Edit) (coord : Coord) :
    (g.mergeEdits rg ed coord).alt_seq =
      g.alt_seq ++ [{ rg with edits := ed, coord := coord }] := by
  unfold RepeatGroup.mergeEdits RepeatGroup.merge
  simp only [modifyBack_append_singleton]

theorem writeSNPs_group (qchrText : Nat → String) (g : RepeatGroup) (fp chr : String)
    (r : RepeatGroup × String) (h : g.writeSNPs qchrText fp chr = some r) : r.1 = g := by
  unfold RepeatGroup.writeSNPs at h
  split at h
  · exact Option.noConfusion h
  · cases h; rfl

theorem writeHaploType_group (g : RepeatGroup) (fp chr : String) (n : Nat)
    (r : RepeatGroup × String × Nat) (h : g.writeHaploType fp chr n = some r) :
    r.1 = g := by
  unfold RepeatGroup.writeHaploType at h
  split at h
  · exact Option.noConfusion h
  · split at h
    · exact Option.noConfusion h
    · simp only [] at h
      split at h
      · split at h
        · exact Option.noConfusion h
        · cases h; rfl
      · exact Option.noConfusion h

/-- C7: `set_empty()` makes `empty()` true and changes no field other than
`positions`; and a group with `empty()` true still has `empty()` true after
`merge(rg)`, `merge(rg, edits, coord)`, `buildSNPs`, `set_empty`, `writeSNPs`
and `writeHaploType`. -/
theorem tombstone_one_way (g : RepeatGroup) :
    (g.set_empty.empty = true ∧ g.set_empty.seq = g.seq ∧ g.set_empty.coord = g.coord ∧
      g.set_empty.edits = g.edits ∧ g.set_empty.snpIDs = g.snpIDs ∧
      g.set_empty.alt_seq = g.alt_seq ∧ g.set_empty.base_offset = g.base_offset) ∧
    (g.empty = true →
      (∀ rg : RepeatGroup, (g.merge rg).empty = true) ∧
      (∀ (rg : RepeatGroup) (ed : List Edit) (coord : Coord),
        (g.mergeEdits rg ed coord).empty = true) ∧
      (∀ n : Nat, (g.buildSNPs n).1.empty = true) ∧
      g.set_empty.empty = true ∧
      (∀ (qchrText : Nat → String) (fp chr : String) (r : RepeatGroup × String),
        g.writeSNPs qchrText fp chr = some r → r.1.empty = true) ∧
      (∀ (fp chr : String) (n : Nat) (r : RepeatGroup × String × Nat),
        g.writeHaploType fp chr n = some r → r.1.empty = true)) := by
  refine ⟨⟨rfl, rfl, rfl, rfl, rfl, rfl, rfl⟩, ?_⟩
  intro he
  refine ⟨fun _ => he, fun _ _ _ => he, fun _ => he, rfl, ?_, ?_⟩
  · intro qchrText fp chr r h
    rw [writeSNPs_group qchrText g fp chr r h]; exact he
  · intro fp chr n r h
    rw [writeHaploType_group g fp chr n r h]; exact he

/-- Witness of `tombstone_one_way`: a tombstoned group with one edit, on which
`writeSNPs` and `writeHaploType` both return. -/
theorem tombstone_one_way_witness :
    exTombstoned.empty = true ∧
    (exTombstoned.merge exOneEdit).empty = true ∧
    (exTombstoned.buildSNPs 3).1.empty = true ∧
    (exTombstoned.writeSNPs charText "" "chr1").isSome = true ∧
    (exTombstoned.writeHaploType "" "chr1" 0).isSome = true ∧
    (∀ r : RepeatGroup × String,
      exTombstoned.writeSNPs charText "" "chr1" = some r → r.1.empty = true) ∧
    (∀ r : RepeatGroup × String × Nat,
      exTombstoned.writeHaploType "" "chr1" 0 = some r → r.1.empty = true) :=
  ⟨by decide, ((tombstone_one_way exTombstoned).2 (by decide)).1 exOneEdit,
    ((tombstone_one_way exTombstoned).2 (by decide)).2.2.1 3, by decide, by decide,
    ((tombstone_one_way exTombstoned).2 (by decide)).2.2.2.2.1 charText "" "chr1",
    ((tombstone_one_way exTombstoned).2 (by decide)).2.2.2.2.2 "" "chr1" 0⟩

/-- C8: after `merge(rg, ed, coord)` the receiver's `alt_seq` is the old
`alt_seq` with exactly one entry appended; the entry equals `rg` in `seq`,
`positions`, `snpIDs`, `alt_seq` and `base_offset` and has `edits = ed` and
`coord = coord`; the receiver's `seq`, `positions`, `coord`, `edits`,
`snpIDs` and `base_offset` are unchanged. -/
theorem mergeEdits_frame (g rg : RepeatGroup) (ed : List Edit) (coord : Coord) :
    (∃ a : RepeatGroup,
      (g.mergeEdits rg ed coord).alt_seq = g.alt_seq ++ [a] ∧
      a.seq = rg.seq ∧ a.positions = rg.positions ∧ a.snpIDs = rg.snpIDs ∧
      a.alt_seq = rg.alt_seq ∧ a.base_offset = rg.base_offset ∧
      a.edits = ed ∧ a.coord = coord) ∧
    (g.mergeEdits rg ed coord).seq = g.seq ∧
    (g.mergeEdits rg ed coord).positions = g.positions ∧
    (g.mergeEdits rg ed coord).coord = g.coord ∧
    (g.mergeEdits rg ed coord).edits = g.edits ∧
    (g.mergeEdits rg ed coord).snpIDs = g.snpIDs ∧
    (g.mergeEdits rg ed coord).base_offset = g.base_offset :=
  ⟨⟨_, mergeEdits_alt_seq g rg ed coord, rfl, rfl, rfl, rfl, rfl, rfl, rfl⟩,
    rfl, rfl, rfl, rfl, rfl, rfl⟩

/-- C9 (amended): when every entry of the receiver's `alt_seq` has an empty
`alt_seq` and the merged group `rg` has an empty `alt_seq` too, then after
`merge(rg)` or `merge(rg, ed, coord)` every entry of the receiver's `alt_seq`
still has an empty `alt_seq`. -/
theorem merge_one_level (g rg : RepeatGroup) (ed : List Edit) (coord : Coord)
    (hg : ∀ a ∈ g.alt_seq, a.alt_seq = []) (hrg : rg.alt_seq = []) :
    (∀ a ∈ (g.merge rg).alt_seq, a.alt_seq = []) ∧
    (∀ a ∈ (g.mergeEdits rg ed coord).alt_seq, a.alt_seq = []) := by
  constructor
  · intro a ha
    have ha2 : a ∈ g.alt_seq ++ [rg] := ha
    rcases List.mem_append.1 ha2 with h | h
    · exact hg a h
    · rw [List.mem_singleton.1 h]; exact hrg
  · intro a ha
    rw [mergeEdits_alt_seq] at ha
    rcases List.mem_append.1 ha with h | h
    · exact hg a h
    · rw [List.mem_singleton.1 h]; exact hrg

/-- Witness of `merge_one_level`: a receiver with one alternate absorbs a
group without alternates. -/
theorem merge_one_level_witness :
    (∀ a ∈ exWithAlternate.alt_seq, a.alt_seq = []) ∧ exOneEdit.alt_seq = [] ∧
    (∀ a ∈ (exWithAlternate.merge exOneEdit).alt_seq, a.alt_seq = []) ∧
    (∀ a ∈ (exWithAlternate.mergeEdits exOneEdit [] ⟨0, 4, true⟩).alt_seq,
      a.alt_seq = []) :=
  have h1 : ∀ a ∈ exWithAlternate.alt_seq, a.alt_seq = [] := by
    intro a ha
    have ha2 : a ∈ [exOneReadGap] := ha
    rw [List.mem_singleton.1 ha2]; rfl
  ⟨h1, rfl, merge_one_level exWithAlternate exOneEdit [] ⟨0, 4, true⟩ h1 rfl⟩

/-- C9 fails as stated: a receiver without alternates that absorbs a group
carrying one alternate ends with an `alt_seq` entry whose own `alt_seq` is
populated. -/
theorem merge_one_level_counterexample :
    (∀ a ∈ exOneEdit.alt_seq, a.alt_seq = []) ∧
    ¬ (∀ a ∈ (exOneEdit.merge exWithAlternate).alt_seq, a.alt_seq = []) := by
  constructor
  · intro a ha
    have ha2 : a ∈ ([] : List RepeatGroup) := ha
    exact absurd ha2 (List.not_mem_nil a)
  · intro h
    have hmem : exWithAlternate ∈ (exOneEdit.merge exWithAlternate).alt_seq := by
      show exWithAlternate ∈ [] ++ [exWithAlternate]
      simp
    have h2 := h exWithAlternate hmem
    have h3 : exWithAlternate.alt_seq = [exOneReadGap] := rfl
    rw [h3] at h2
    exact List.cons_ne_nil _ _ h2

/-! ## `Fragments::contain` -/

theorem contain_iff (w : Nat) (f : Fragments) (pos : Nat)
    (h : f.joinedOff + f.length < 2 ^ w) :
    f.contain w pos = true ↔ f.joinedOff ≤ pos ∧ pos < f.joinedOff + f.length := by
  unfold Fragments.contain
  rw [Nat.mod_eq_of_lt h]
  simp

theorem contain_count_from (w : Nat) (fs : List Fragments) : ∀ (s total : Nat),
    (∀ f, fs.head? = some f → f.joinedOff = s) →
    List.Chain' (fun a b : Fragments => b.joinedOff = a.joinedOff + a.length) fs →
    s + (fs.map (fun f => f.length)).sum = total →
    (∀ f ∈ fs, f.joinedOff + f.length < 2 ^ w) →
    ∀ p : Nat,
      (s ≤ p → p < total → fs.countP (fun f => f.contain w p) = 1) ∧
      (p < s ∨ total ≤ p → fs.countP (fun f => f.contain w p) = 0) := by
  induction fs with
  | nil =>
    intro s total _ _ hsum _ p
    simp only [List.map_nil, List.sum_nil, Nat.add_zero] at hsum
    refine ⟨fun h1 h2 => ?_, fun _ => rfl⟩
    omega
  | cons f fs ih =>
    intro s total hhead hchain hsum hno p
    have hf : f.joinedOff = s := hhead f rfl
    have hnof := hno f (List.mem_cons_self _ _)
    have hc := contain_iff w f p hnof
    rw [hf] at hc
    have hhead2 : ∀ f2, fs.head? = some f2 → f2.joinedOff = s + f.length := by
      intro f2 h2
      cases fs with
      | nil => simp at h2
      | cons b fs2 =>
        simp only [List.head?_cons, Option.some.injEq] at h2
        subst h2
        have := (List.chain'_cons.1 hchain).1
        rw [this, hf]
    have hchain2 := List.Chain'.tail hchain
    rw [List.tail_cons] at hchain2
    have hsum2 : s + f.length + (fs.map (fun f => f.length)).sum = total := by
      simp only [List.map_cons, List.sum_cons] at hsum; omega
    have hno2 : ∀ f2 ∈ fs, f2.joinedOff + f2.length < 2 ^ w :=
      fun f2 h2 => hno f2 (List.mem_cons_of_mem _ h2)
    have ihp := ih (s + f.length) total hhead2 hchain2 hsum2 hno2 p
    rw [List.countP_cons]
    by_cases hcp : f.contain w p = true
    · have hcp2 := hc.1 hcp
      simp only [hcp, if_true]
      refine ⟨fun _ _ => ?_, fun h => ?_⟩
      · rw [ihp.2 (Or.inl hcp2.2)]
      · omega
    · have hcp2 : ¬ (s ≤ p ∧ p < s + f.length) := fun h => hcp (hc.2 h)
      simp only [hcp, if_false, Bool.false_eq_true, Nat.add_zero]
      refine ⟨fun h1 h2 => ?_, fun h => ?_⟩
      · exact ihp.1 (by omega) h2
      · exact ihp.2 (by omega)

theorem tiling_no_overflow (w : Nat) (fs : List Fragments) : ∀ (s total : Nat),
    (∀ f, fs.head? = some f → f.joinedOff = s) →
    List.Chain' (fun a b : Fragments => b.joinedOff = a.joinedOff + a.length) fs →
    s + (fs.map (fun f => f.length)).sum = total → total < 2 ^ w →
    ∀ f ∈ fs, f.joinedOff + f.length < 2 ^ w := by
  induction fs with
  | nil => intro s total _ _ _ _ f hf; exact absurd hf (List.not_mem_nil f)
  | cons f fs ih =>
    intro s total hhead hchain hsum hlt f2 hf2
    have hf : f.joinedOff = s := hhead f rfl
    have hsum2 : s + f.length + (fs.map (fun f => f.length)).sum = total := by
      simp only [List.map_cons, List.sum_cons] at hsum; omega
    rcases List.mem_cons.1 hf2 with h | h
    · rw [h, hf]; omega
    · have hhead2 : ∀ f3, fs.head? = some f3 → f3.joinedOff = s + f.length := by
        intro f3 h3
        cases fs with
        | nil => simp at h3
        | cons b fs2 =>
          simp only [List.head?_cons, Option.some.injEq] at h3
          subst h3
          have := (List.chain'_cons.1 hchain).1
          rw [this, hf]
      have hchain2 := List.Chain'.tail hchain
      rw [List.tail_cons] at hchain2
      exact ih (s + f.length) total hhead2 hchain2 hsum2 hlt f2 h

/-- C10: when `joinedOff + length` does not overflow `TIndexOffU`,
`contain(pos)` is true iff `joinedOff <= pos < joinedOff + length`; and for a
fragment list that tiles `[0, totalLength)` (the first fragment starts at 0,
each next fragment's `joinedOff` is the previous `joinedOff + length`, the
lengths sum to `totalLength`) without such an overflow, in particular whenever
`totalLength` is a `TIndexOffU` value, every position below `totalLength` is
contained by exactly one fragment of the list and no position from
`totalLength` on is contained by any. -/
theorem contain_coverage (w : Nat) :
    (∀ (f : Fragments) (pos : Nat), f.joinedOff + f.length < 2 ^ w →
      (f.contain w pos = true ↔ f.joinedOff ≤ pos ∧ pos < f.joinedOff + f.length)) ∧
    (∀ (fs : List Fragments) (totalLength : Nat),
      (∀ f, fs.head? = some f → f.joinedOff = 0) →
      List.Chain' (fun a b : Fragments => b.joinedOff = a.joinedOff + a.length) fs →
      (fs.map (fun f => f.length)).sum = totalLength →
      ((∀ f ∈ fs, f.joinedOff + f.length < 2 ^ w) ∨ totalLength < 2 ^ w) →
      ∀ p : Nat,
        (p < totalLength → fs.countP (fun f => f.contain w p) = 1) ∧
        (totalLength ≤ p → fs.countP (fun f => f.contain w p) = 0)) := by
  refine ⟨contain_iff w, ?_⟩
  intro fs totalLength hhead hchain hsum hno p
  have hno2 : ∀ f ∈ fs, f.joinedOff + f.length < 2 ^ w := by
    rcases hno with h | h
    · exact h
    · exact tiling_no_overflow w fs 0 totalLength hhead hchain (by omega) h
  have h := contain_count_from w fs 0 totalLength hhead hchain (by omega) hno2 p
  exact ⟨fun hp => h.1 (Nat.zero_le p) hp, fun hp => h.2 (Or.inr hp)⟩

/-- Witness of `contain_coverage`: three fragments tiling `[0, 12)` with a
32-bit `TIndexOffU`; position 4 lies in exactly one of them, position 12 in
none. -/
theorem contain_coverage_witness :
    (exFragments.map (fun f => f.length)).sum = 12 ∧
    (12 : Nat) < 2 ^ 32 ∧
    exFragments.countP (fun f => f.contain 32 4) = 1 ∧
    exFragments.countP (fun f => f.contain 32 12) = 0 :=
  have hhead : ∀ f, exFragments.head? = some f → f.joinedOff = 0 := by
    intro f hf
    simp only [exFragments, List.head?_cons, Option.some.injEq] at hf
    rw [← hf]
  have hchain : List.Chain' (fun a b : Fragments => b.joinedOff = a.joinedOff + a.length)
      exFragments := by
    simp [exFragments]
  ⟨by decide, by decide,
    ((contain_coverage 32).2 exFragments 12 hhead hchain (by decide) (Or.inr (by decide)) 4).1
      (by decide),
    ((contain_coverage 32).2 exFragments 12 hhead hchain (by decide) (Or.inr (by decide)) 12).2
      (by decide)⟩

/-! ## `compareRepeatGroupByJoinedOff` -/

theorem live_first (g : RepeatGroup) (h : g.empty = false) :
    ∃ p, g.positions[0]? = some p := by
  unfold RepeatGroup.empty at h
  cases hp : g.positions with
  | nil => rw [hp] at h; simp at h
  | cons p ps => exact ⟨p, List.getElem?_cons_zero⟩

theorem compare_of_first (a b : RepeatGroup) (pa pb : RepeatCoord)
    (ha : a.positions[0]? = some pa) (hb : b.positions[0]? = some pb) :
    compareRepeatGroupByJoinedOff a b = some (decide (pa.joinedOff < pb.joinedOff)) := by
  unfold compareRepeatGroupByJoinedOff
  rw [ha, hb]

theorem firstJoinedOff_of_first (a : RepeatGroup) (pa : RepeatCoord)
    (ha : a.positions[0]? = some pa) : firstJoinedOff a = some pa.joinedOff := by
  unfold firstJoinedOff
  rw [ha]

/-- C11: on live groups (positions non-empty)
`compareRepeatGroupByJoinedOff(a, b)` returns true iff
`a.positions[0].joinedOff < b.positions[0].joinedOff`; it is irreflexive,
asymmetric and transitive, and its incomparability is transitive; and a list
of live groups sorted with it (no element compares less than an earlier one)
is ascending by the joined offset of each group's first position. -/
theorem compare_strict_weak_order :
    (∀ a b : RepeatGroup, a.empty = false → b.empty = false →
      ∃ x y : Nat, firstJoinedOff a = some x ∧ firstJoinedOff b = some y ∧
        compareRepeatGroupByJoinedOff a b = some (decide (x < y))) ∧
    (∀ a : RepeatGroup, a.empty = false →
      compareRepeatGroupByJoinedOff a a = some false) ∧
    (∀ a b : RepeatGroup, a.empty = false → b.empty = false →
      compareRepeatGroupByJoinedOff a b = some true →
      compareRepeatGroupByJoinedOff b a = some false) ∧
    (∀ a b c : RepeatGroup, a.empty = false → b.empty = false → c.empty = false →
      compareRepeatGroupByJoinedOff a b = some true →
      compareRepeatGroupByJoinedOff b c = some true →
      compareRepeatGroupByJoinedOff a c = some true) ∧
    (∀ a b c : RepeatGroup, a.empty = false → b.empty = false → c.empty = false →
      compareRepeatGroupByJoinedOff a b = some false →
      compareRepeatGroupByJoinedOff b a = some false →
      compareRepeatGroupByJoinedOff b c = some false →
      compareRepeatGroupByJoinedOff c b = some false →
      compareRepeatGroupByJoinedOff a c = some false ∧
      compareRepeatGroupByJoinedOff c a = some false) ∧
    (∀ l : List RepeatGroup, (∀ g ∈ l, g.empty = false) →
      List.Pairwise (fun a b => compareRepeatGroupByJoinedOff b a = some false) l →
      List.Pairwise (fun a b => ∃ x y : Nat,
        firstJoinedOff a = some x ∧ firstJoinedOff b = some y ∧ x ≤ y) l) := by
  refine ⟨?_, ?_, ?_, ?_, ?_, ?_⟩
  · intro a b ha hb
    obtain ⟨pa, hpa⟩ := live_first a ha
    obtain ⟨pb, hpb⟩ := live_first b hb
    exact ⟨_, _, firstJoinedOff_of_first a pa hpa, firstJoinedOff_of_first b pb hpb,
      compare_of_first a b pa pb hpa hpb⟩
  · intro a ha
    obtain ⟨pa, hpa⟩ := live_first a ha
    rw [compare_of_first a a pa pa hpa hpa]
    simp
  · intro a b ha hb h
    obtain ⟨pa, hpa⟩ := live_first a ha
    obtain ⟨pb, hpb⟩ := live_first b hb
    rw [compare_of_first a b pa pb hpa hpb] at h
    rw [compare_of_first b a pb pa hpb hpa]
    simp only [Option.some.injEq, decide_eq_true_eq, decide_eq_false_iff_not] at h ⊢
    omega
  · intro a b c ha hb hc h1 h2
    obtain ⟨pa, hpa⟩ := live_first a ha
    obtain ⟨pb, hpb⟩ := live_first b hb
    obtain ⟨pc, hpc⟩ := live_first c hc
    rw [compare_of_first a b pa pb hpa hpb] at h1
    rw [compare_of_first b c pb pc hpb hpc] at h2
    rw [compare_of_first a c pa pc hpa hpc]
    simp only [Option.some.injEq, decide_eq_true_eq] at h1 h2 ⊢
    omega
  · intro a b c ha hb hc h1 h2 h3 h4
    obtain ⟨pa, hpa⟩ := live_first a ha
    obtain ⟨pb, hpb⟩ := live_first b hb
    obtain ⟨pc, hpc⟩ := live_first c hc
    rw [compare_of_first a b pa pb hpa hpb] at h1
    rw [compare_of_first b a pb pa hpb hpa] at h2
    rw [compare_of_first b c pb pc hpb hpc] at h3
    rw [compare_of_first c b pc pb hpc hpb] at h4
    rw [compare_of_first a c pa pc hpa hpc, compare_of_first c a pc pa hpc hpa]
    simp only [Option.some.injEq, decide_eq_false_iff_not] at h1 h2 h3 h4 ⊢
    omega
  · intro l hl hs
    refine List.Pairwise.imp_of_mem ?_ hs
    intro a b ha hb h
    obtain ⟨pa, hpa⟩ := live_first a (hl a ha)
    obtain ⟨pb, hpb⟩ := live_first b (hl b hb)
    rw [compare_of_first b a pb pa hpb hpa] at h
    simp only [Option.some.injEq, decide_eq_false_iff_not] at h
    exact ⟨_, _, firstJoinedOff_of_first a pa hpa, firstJoinedOff_of_first b pb hpb,
      by omega⟩

/-- Witness of `compare_strict_weak_order`: three live groups with first
joined offsets 0, 3 and 9. -/
theorem compare_strict_weak_order_witness :
    exOneEdit.empty = false ∧ exLiveThree.empty = false ∧
    exWithAlternate.empty = false ∧
    compareRepeatGroupByJoinedOff exOneEdit exLiveThree = some true ∧
    compareRepeatGroupByJoinedOff exLiveThree exWithAlternate = some true ∧
    compareRepeatGroupByJoinedOff exOneEdit exWithAlternate = some true ∧
    compareRepeatGroupByJoinedOff exLiveThree exOneEdit = some false :=
  ⟨by decide, by decide, by decide, by decide, by decide,
    compare_strict_weak_order.2.2.2.1 exOneEdit exLiveThree exWithAlternate
      (by decide) (by decide) (by decide) (by decide) (by decide),
    compare_strict_weak_order.2.2.1 exOneEdit exLiveThree (by decide) (by decide)
      (by decide)⟩

/-! ## `SeedExt` -/

/-- C13: a freshly constructed or reset `SeedExt` has all six interval
endpoints 0, so `bound.first <= pos.first <= pos.second <= bound.second`; it
is not done, and `ed`, `total_ed`, `baseoff` and `backbone` are 0; `reset` is
idempotent and its result does not depend on the previous state. -/
theorem seedExt_reset (s t : SeedExt) :
    (s.reset.bound.1 ≤ s.reset.pos.1 ∧ s.reset.pos.1 ≤ s.reset.pos.2 ∧
      s.reset.pos.2 ≤ s.reset.bound.2) ∧
    (s.reset.orig_pos = (0, 0) ∧ s.reset.pos = (0, 0) ∧ s.reset.bound = (0, 0)) ∧
    s.reset.done = false ∧ s.reset.ed = 0 ∧ s.reset.total_ed = 0 ∧
    s.reset.baseoff = 0 ∧ s.reset.backbone = 0 ∧
    (SeedExt.construct s).reset = SeedExt.construct s ∧
    SeedExt.construct s = s.reset ∧
    s.reset.reset = s.reset ∧
    s.reset = t.reset := by
  refine ⟨⟨?_, ?_, ?_⟩, ⟨rfl, rfl, rfl⟩, rfl, rfl, rfl, rfl, rfl, rfl, rfl, rfl, rfl⟩ <;>
    exact Nat.le_refl 0

/-! ## Allele of a mismatch -/

theorem writeSNPs_rows_get (qchrText : Nat → String) (g : RepeatGroup) (chr : String)
    (i : Nat) (e : Edit) (hie : g.edits[i]? = some e) :
    (rowsLoop qchrText g.snpIDs chr g.ref_base g.edits 0 0 0)[i]? =
      some [g.snpIDs.getD i "", kindText e, chr,
        toString (wrapSize ((g.base_offset : Int) + g.coord.off + (e.pos : Int)
          + wrapInt (rdGapsBefore g.edits i : Int) - wrapInt (rfGapsBefore g.edits i : Int))),
        alleleText qchrText e] := by
  have hrow := rowsLoop_get qchrText g.snpIDs chr g.ref_base g.edits 0 0 0 i e hie
  simp only [Nat.cast_zero, Nat.zero_add] at hrow
  have hw0 : wrapInt 0 = 0 := by decide
  rw [hw0, snpPos_ref_base] at hrow
  exact hrow

/-- C12: with `fp << qchr` writing the character, the allele (fifth) field of
the row that `writeSNPs` emits for a mismatch edit with query character `c` is
the one character `c` (the text `G` for code 71), the same text as the allele
field of the row of a ref-gap (insertion) edit with query character `c`. -/
theorem writeSNPs_mismatch_allele (g : RepeatGroup) (fp chr : String)
    (hk : ∀ e ∈ g.edits, e.isMismatch = true ∨ e.isReadGap = true ∨ e.isRefGap = true)
    (hs : g.edits.length ≤ g.snpIDs.length) :
    (∃ rows : List (List String),
      g.writeSNPs qchrStreamText fp chr = some (g, fp ++ rowsText rows) ∧
      ∀ (i : Nat) (e : Edit), g.edits[i]? = some e →
        e.isMismatch = true ∨ e.isRefGap = true →
        ∃ id kind pos : String,
          rows[i]? = some [id, kind, chr, pos, String.singleton (Char.ofNat (e.qchr % 256))]) ∧
    (∀ c : Nat, c < 256 →
      String.singleton (Char.ofNat (c % 256)) = String.singleton (Char.ofNat c)) ∧
    String.singleton (Char.ofNat (71 % 256)) = "G" := by
  refine ⟨⟨_, writeSNPs_eq qchrStreamText g fp chr hk hs, ?_⟩, ?_, by decide⟩
  · intro i e hie hme
    have hrow := writeSNPs_rows_get qchrStreamText g chr i e hie
    have hal : alleleText qchrStreamText e =
        String.singleton (Char.ofNat (e.qchr % 256)) := by
      cases ht : e.type <;>
        simp [alleleText, Edit.isMismatch, Edit.isRefGap, ht, qchrStreamText, charText]
          at hme ⊢
    rw [hal] at hrow
    exact ⟨_, _, _, hrow⟩
  · intro c hc
    rw [Nat.mod_eq_of_lt hc]

/-- Witness of `writeSNPs_mismatch_allele`: the `C` to `G` mismatch of the
scenario. -/
theorem writeSNPs_mismatch_allele_witness :
    (∀ e ∈ exMismatchG.edits,
      e.isMismatch = true ∨ e.isReadGap = true ∨ e.isRefGap = true) ∧
    exMismatchG.edits.length ≤ exMismatchG.snpIDs.length ∧
    (exMismatchG.writeSNPs qchrStreamText "" "chr1").map Prod.snd =
      some "rps0\tsingle\tchr1\t7\tG\n" ∧
    ∃ rows : List (List String),
      exMismatchG.writeSNPs qchrStreamText "" "chr1" =
        some (exMismatchG, "" ++ rowsText rows) :=
  ⟨by decide, by decide, by decide,
    (writeSNPs_mismatch_allele exMismatchG "" "chr1" (by decide) (by decide)).1.imp
      (fun _ h => h.1)⟩

/-! ## Well-ordered edits -/

/-- C15: immediately after `buildSNPs` the list `snpIDs` has one entry per
edit, so every `snpIDs[i]` that `writeSNPs` reads (`i < edits.size()`) is in
range and `writeSNPs` runs to its end when every edit is a mismatch, a read
gap or a ref gap; if `edits` is non-empty both assertions at the top of
`writeHaploType` hold, `edits[0]`, `edits[edits.size()-1]` and every
`snpIDs[i]` are in range and `writeHaploType` runs to its end; and
`positions[0]` is in range for both arguments of
`compareRepeatGroupByJoinedOff` iff neither group is tombstoned. -/
theorem index_in_range (g a b : RepeatGroup) (n : Nat) :
    ((g.buildSNPs n).1.snpIDs.length = (g.buildSNPs n).1.edits.length ∧
      (∀ i : Nat, i < (g.buildSNPs n).1.edits.length →
        ∃ id : String, (g.buildSNPs n).1.snpIDs[i]? = some id) ∧
      ((∀ e ∈ g.edits, e.isMismatch = true ∨ e.isReadGap = true ∨ e.isRefGap = true) →
        ∀ (qchrText : Nat → String) (fp chr : String),
          ((g.buildSNPs n).1.writeSNPs qchrText fp chr).isSome = true)) ∧
    (g.edits ≠ [] →
      (g.buildSNPs n).1.edits.length > 0 ∧
      (g.buildSNPs n).1.edits.length = (g.buildSNPs n).1.snpIDs.length ∧
      (∃ e0 : Edit, (g.buildSNPs n).1.edits[0]? = some e0) ∧
      (∃ eN : Edit,
        (g.buildSNPs n).1.edits[(g.buildSNPs n).1.edits.length - 1]? = some eN) ∧
      (∀ i : Nat, i < (g.buildSNPs n).1.edits.length →
        ∃ id : String, (g.buildSNPs n).1.snpIDs[i]? = some id) ∧
      ∀ (fp chr : String) (m : Nat),
        ((g.buildSNPs n).1.writeHaploType fp chr m).isSome = true) ∧
    (((∃ pa : RepeatCoord, a.positions[0]? = some pa) ∧
        (∃ pb : RepeatCoord, b.positions[0]? = some pb)) ↔
      (a.empty = false ∧ b.empty = false)) ∧
    ((compareRepeatGroupByJoinedOff a b).isSome = true ↔
      (a.empty = false ∧ b.empty = false)) := by
  have hlen : (g.buildSNPs n).1.snpIDs.length = (g.buildSNPs n).1.edits.length := by
    exact buildSNPs_length g n
  have hget : ∀ i : Nat, i < (g.buildSNPs n).1.edits.length →
      ∃ id : String, (g.buildSNPs n).1.snpIDs[i]? = some id := by
    intro i hi
    exact ⟨_, List.getElem?_eq_getElem (by omega)⟩
  have hlive : ∀ c : RepeatGroup,
      (∃ p : RepeatCoord, c.positions[0]? = some p) ↔ c.empty = false := by
    intro c
    constructor
    · rintro ⟨p, hp⟩
      unfold RepeatGroup.empty
      cases hc : c.positions with
      | nil => rw [hc] at hp; simp at hp
      | cons q qs => simp
    · exact live_first c
  refine ⟨⟨hlen, hget, ?_⟩, ?_, ?_, ?_⟩
  · intro hk qchrText fp chr
    rw [writeSNPs_eq qchrText (g.buildSNPs n).1 fp chr hk (by omega)]
    rfl
  · intro hne
    have hpos : (g.buildSNPs n).1.edits.length > 0 := List.length_pos.2 hne
    have he0 : (g.buildSNPs n).1.edits[0]? = some ((g.buildSNPs n).1.edits[0]) :=
      List.getElem?_eq_getElem hpos
    have heN : (g.buildSNPs n).1.edits[(g.buildSNPs n).1.edits.length - 1]? =
        some ((g.buildSNPs n).1.edits[(g.buildSNPs n).1.edits.length - 1]) :=
      List.getElem?_eq_getElem (by omega)
    refine ⟨hpos, hlen.symm, ⟨_, he0⟩, ⟨_, heN⟩, hget, ?_⟩
    intro fp chr m
    rw [writeHaploType_eq (g.buildSNPs n).1 fp chr m _ _ hpos hlen.symm he0 heN]
    rfl
  · rw [hlive a, hlive b]
  · rw [← hlive a, ← hlive b]
    constructor
    · intro h
      unfold compareRepeatGroupByJoinedOff at h
      cases ha : a.positions[0]? with
      | none => rw [ha] at h; simp at h
      | some pa =>
        cases hb : b.positions[0]? with
        | none => rw [ha, hb] at h; simp at h
        | some pb => exact ⟨⟨pa, rfl⟩, ⟨pb, rfl⟩⟩
    · rintro ⟨⟨pa, ha⟩, ⟨pb, hb⟩⟩
      rw [compare_of_first a b pa pb ha hb]
      rfl

/-- Witness of `index_in_range`: a group with two edits and a stale
identifier list, numbered from 5. -/
theorem index_in_range_witness :
    (∀ e ∈ exTwoEdits.edits,
      e.isMismatch = true ∨ e.isReadGap = true ∨ e.isRefGap = true) ∧
    exTwoEdits.edits ≠ [] ∧
    ((exTwoEdits.buildSNPs 5).1.writeSNPs charText "" "chr1").isSome = true ∧
    ((exTwoEdits.buildSNPs 5).1.writeHaploType "" "chr1" 0).isSome = true :=
  ⟨by decide, by decide,
    (index_in_range exTwoEdits exOneEdit exTombstoned 5).1.2.2 (by decide) charText ""
      "chr1",
    ((index_in_range exTwoEdits exOneEdit exTombstoned 5).2.1 (by decide)).2.2.2.2.2 ""
      "chr1" 0⟩

end RepeatBuilder
